import Mathlib

/-!
Verification of the GPA-Calculator single-page application (src/App.tsx).

The development shallowly embeds the data model, the GPA engine, the
state-container operations and the persistence adapter of the source file.
JavaScript numbers that only ever hold integers are modelled as Int / ℕ and
the grade-point arithmetic as ℚ; JavaScript strings as String; the
IndexedDB object stores as lists of records keyed by their id field; a NaN
produced by a missing grade-table lookup as Option.none.  String ids
produced by Number.prototype.toString are modelled by the decimal printer
natStr.
-/

namespace GpaApp

/-! ### Decimal printing of JavaScript numbers (Number.prototype.toString) -/

/-- Character of a decimal digit, 0 ↦ the character 0, ..., 9 ↦ 9. -/
def digitChar (n : ℕ) : Char := Char.ofNat (48 + n)

/-- Big-endian decimal digit list of a natural number, as produced by
JavaScript Number.prototype.toString applied to a non-negative integer. -/
def natChars (n : ℕ) : List Char :=
  if n < 10 then [digitChar n]
  else natChars (n / 10) ++ [digitChar (n % 10)]
decreasing_by exact Nat.div_lt_self (by omega) (by norm_num)

/-- Decimal string of a natural number (JavaScript numeric toString). -/
def natStr (n : ℕ) : String := ⟨natChars n⟩

/-- Numeric value of a decimal digit character. -/
def digitVal (c : Char) : ℕ := c.toNat - 48

/-- Value of a big-endian decimal digit list. -/
def parseDigits (cs : List Char) : ℕ := cs.foldl (fun a c => 10 * a + digitVal c) 0

/-! ### Domain model (interfaces Course, Semester, Year, UserProfile) -/

/-- Course record: id, free-text name, letter grade, credits.  Credits is
an Int: the UI writes the result of parseInt(input) with 0 substituted for
NaN, which is an integer but not necessarily non-negative. -/
structure Course where
  id : String
  name : String
  grade : String
  credits : Int
deriving DecidableEq, Repr

/-- Semester record: id, name, ordered course list. -/
structure Semester where
  id : String
  name : String
  courses : List Course
deriving DecidableEq, Repr

/-- Year record: id, name, ordered semester list. -/
structure Year where
  id : String
  name : String
  semesters : List Semester
deriving DecidableEq, Repr

/-- User profile record: four string fields (photo is a data-URL string). -/
structure UserProfile where
  name : String
  indexNumber : String
  university : String
  photo : String
deriving DecidableEq, Repr

/-- Fixed letter-grade to point-value table (const gradePoints).  A lookup
with a key outside the table is undefined in the source and poisons the
arithmetic to NaN; the embedding returns none there. -/
def gradePoints : String → Option ℚ
  | "A" => some 4
  | "A-" => some (37/10)
  | "B+" => some (33/10)
  | "B" => some 3
  | "B-" => some (27/10)
  | "C+" => some (23/10)
  | "C" => some 2
  | "C-" => some (17/10)
  | "D+" => some (13/10)
  | "D" => some 1
  | "D-" => some (7/10)
  | "F" => some 0
  | _ => none

/-! ### GPA engine (calculateGPA) -/

/-- Rounding to two decimal places, the semantics of toFixed(2) followed by
parseFloat: nearest hundredth, ties toward the larger value. -/
def round2 (x : ℚ) : ℚ := ((round (100 * x) : ℤ) : ℚ) / 100

/-- One step of the forEach accumulation of totalPoints:
totalPoints += gradePoints[course.grade] * course.credits, with none
standing for the NaN produced by a missing grade lookup. -/
def pointsStep (acc : Option ℚ) (c : Course) : Option ℚ :=
  match acc, gradePoints c.grade with
  | some p, some g => some (p + g * (c.credits : ℚ))
  | _, _ => none

/-- Accumulated grade points of a course list (variable totalPoints). -/
def totalPoints (courses : List Course) : Option ℚ :=
  courses.foldl pointsStep (some 0)

/-- Accumulated credits of a course list (variable totalCredits). -/
def totalCredits (courses : List Course) : Int :=
  courses.foldl (fun a c => a + c.credits) 0

/-- calculateGPA: totalCredits > 0 ? parseFloat((totalPoints / totalCredits).toFixed(2)) : 0.
A NaN totalPoints (missing grade) propagates through the positive branch. -/
def calculateGPA (courses : List Course) : Option ℚ :=
  if totalCredits courses > 0 then
    match totalPoints courses with
    | some p => some (round2 (p / (totalCredits courses : ℚ)))
    | none => none
  else some 0

/-! ### Persistence adapter for the years collection (saveData)

The years object store is keyed by the id field; it is modelled as the
list of its records in insertion order.  IndexedDB add rejects on a
duplicate key, which aborts the read-write transaction; the Except models
that failure mode. -/

/-- IDBObjectStore.add on a store with keyPath id: rejects when a record
with the same id is already present, otherwise appends. -/
def addRecord (store : List Year) (y : Year) : Except String (List Year) :=
  if store.any (fun r => r.id = y.id) then Except.error "ConstraintError"
  else Except.ok (store ++ [y])

/-- saveData: one read-write transaction that clears the years store and
re-adds every record of the list in order. -/
def saveData (data : List Year) (_store : List Year) : Except String (List Year) :=
  data.foldlM addRecord ([] : List Year)

/-! ### Persistence adapter for the userProfile singleton -/

/-- Record written to the userProfile store: the profile spread together
with the fixed key field id = user. -/
structure ProfileRecord where
  profile : UserProfile
  id : String
deriving DecidableEq, Repr

/-- IDBObjectStore.put: replace the record carrying the same key if one
exists, else append (upsert). -/
def putRecord (store : List ProfileRecord) (r : ProfileRecord) : List ProfileRecord :=
  if store.any (fun x => x.id = r.id) then store.map (fun x => if x.id = r.id then r else x)
  else store ++ [r]

/-- IDBObjectStore.get by key. -/
def getRecord (store : List ProfileRecord) (key : String) : Option ProfileRecord :=
  store.find? (fun x => x.id = key)

/-- saveUserProfile: put {...profile, id: user} into the userProfile store. -/
def saveUserProfile (profile : UserProfile) (store : List ProfileRecord) : List ProfileRecord :=
  putRecord store (ProfileRecord.mk profile "user")

/-- The all-empty default profile (initial useState value). -/
def emptyProfile : UserProfile := UserProfile.mk "" "" "" ""

/-- handleDeleteProfile persists the all-empty profile (its in-memory
state reset is the same value). -/
def handleDeleteProfile (store : List ProfileRecord) : List ProfileRecord :=
  saveUserProfile emptyProfile store

/-- Profile part of loadData: adopt the stored record under key user if it
exists, else keep the all-empty default. -/
def loadProfile (store : List ProfileRecord) : UserProfile :=
  match getRecord store "user" with
  | some r => r.profile
  | none => emptyProfile

/-! ### Credits input coercion (the credits input onChange handler) -/

/-- Whitespace skipped by parseInt. -/
def isJsSpace (c : Char) : Bool :=
  c = ' ' || c = '\t' || c = '\n' || c = '\r'

/-- Hexadecimal digit value, for the 0x radix prefix of parseInt. -/
def hexVal (c : Char) : Option ℕ :=
  if c.isDigit then some (digitVal c)
  else if 'a' ≤ c && c ≤ 'f' then some (c.toNat - 87)
  else if 'A' ≤ c && c ≤ 'F' then some (c.toNat - 55)
  else none

/-- Value of a big-endian hexadecimal digit list. -/
def parseHexDigits (cs : List Char) : ℕ := cs.foldl (fun a c => 16 * a + (hexVal c).getD 0) 0

/-- Unsigned part of parseInt: an optional 0x/0X radix prefix, then the
longest digit run; none when no digit is consumed (the NaN result). -/
def jsParseIntBody (cs : List Char) : Option ℕ :=
  match cs with
  | '0' :: 'x' :: rest =>
      let ds := rest.takeWhile (fun c => (hexVal c).isSome)
      if ds.isEmpty then none else some (parseHexDigits ds)
  | '0' :: 'X' :: rest =>
      let ds := rest.takeWhile (fun c => (hexVal c).isSome)
      if ds.isEmpty then none else some (parseHexDigits ds)
  | _ =>
      let ds := cs.takeWhile Char.isDigit
      if ds.isEmpty then none else some (parseDigits ds)

/-- JavaScript parseInt(string): skip whitespace, optional sign, longest
valid digit run; NaN (none) when no digit is consumed. -/
def jsParseInt (s : String) : Option Int :=
  match s.data.dropWhile isJsSpace with
  | '-' :: rest => (jsParseIntBody rest).map (fun n => -(n : Int))
  | '+' :: rest => (jsParseIntBody rest).map (fun n => (n : Int))
  | cs => (jsParseIntBody cs).map (fun n => (n : Int))

/-- Credits input coercion parseInt(e.target.value) || 0: NaN and 0 both
yield 0, every other parsed value (negative ones included) passes through. -/
def creditsInputValue (s : String) : Int :=
  match jsParseInt s with
  | none => 0
  | some n => if n = 0 then 0 else n

/-! ### State container operations -/

/-- generateId: pre-increment the module-level counter and render it in
decimal.  Returns the fresh id together with the new counter value. -/
def generateId (c : ℕ) : String × ℕ := (natStr (c + 1), c + 1)

/-- The Year seeded by loadData when the years store is empty. -/
def initialYear : Year :=
  Year.mk "1" "Year 1" [Semester.mk "1-1" "Semester 1" [], Semester.mk "1-2" "Semester 2" []]

/-- State right after first-run seeding: the seeded Year list and the id
counter, which the seeding branch leaves at its initial value 1. -/
def initialState : List Year × ℕ := ([initialYear], 1)

/-- addYear: append a Year with a counter id, name Year (length+1), and two
default semesters with ids derived from the year id. -/
def addYear (years : List Year) (c : ℕ) : List Year × ℕ :=
  (years ++ [Year.mk (natStr (c + 1)) ("Year " ++ natStr (years.length + 1))
      [Semester.mk (natStr (c + 1) ++ "-1") "Semester 1" [],
       Semester.mk (natStr (c + 1) ++ "-2") "Semester 2" []]], c + 1)

/-- List part of deleteYear: drop every year whose id matches. -/
def deleteYearList (years : List Year) (yearId : String) : List Year :=
  years.filter (fun y => y.id ≠ yearId)

/-- deleteYear: filter the year out of the list and erase its id from the
expanded-years set. -/
def deleteYear (years : List Year) (expanded : Finset String) (yearId : String) :
    List Year × Finset String :=
  (deleteYearList years yearId, expanded.erase yearId)

/-- addSemester: map over the years; every year matching the id gets a new
empty semester appended, named Semester (prior count + 1), with a fresh
counter id.  The counter threads left to right exactly as the generateId
calls fire inside the map. -/
def addSemester : List Year → ℕ → String → List Year × ℕ
  | [], c, _ => ([], c)
  | y :: ys, c, yearId =>
    if y.id = yearId then
      let p := addSemester ys (c + 1) yearId
      ({ y with semesters :=
          y.semesters ++ [Semester.mk (natStr (c + 1))
            ("Semester " ++ natStr (y.semesters.length + 1)) []] } :: p.1, p.2)
    else
      let p := addSemester ys c yearId
      (y :: p.1, p.2)

/-- deleteSemester: inside the matching year, drop every semester whose id
matches. -/
def deleteSemester (years : List Year) (yearId semesterId : String) : List Year :=
  years.map fun y =>
    if y.id = yearId then
      { y with semesters := y.semesters.filter (fun s => s.id ≠ semesterId) }
    else y

/-- Semester-level part of addCourse: every semester matching the id gets a
default course (empty name, grade A, 3 credits) with a fresh counter id. -/
def addCourseSems : List Semester → ℕ → String → List Semester × ℕ
  | [], c, _ => ([], c)
  | s :: ss, c, semesterId =>
    if s.id = semesterId then
      let p := addCourseSems ss (c + 1) semesterId
      ({ s with courses := s.courses ++ [Course.mk (natStr (c + 1)) "" "A" 3] } :: p.1, p.2)
    else
      let p := addCourseSems ss c semesterId
      (s :: p.1, p.2)

/-- addCourse: nested map; inside every matching year the semester-level
map runs with the threaded counter. -/
def addCourse : List Year → ℕ → String → String → List Year × ℕ
  | [], c, _, _ => ([], c)
  | y :: ys, c, yearId, semesterId =>
    if y.id = yearId then
      let q := addCourseSems y.semesters c semesterId
      let p := addCourse ys q.2 yearId semesterId
      ({ y with semesters := q.1 } :: p.1, p.2)
    else
      let p := addCourse ys c yearId semesterId
      (y :: p.1, p.2)

/-- Field selector of updateCourse (keyof Course). -/
inductive CourseField where
  | id
  | name
  | grade
  | credits
deriving DecidableEq, Repr

/-- Value passed to updateCourse (string | number). -/
inductive FieldValue where
  | str (s : String)
  | num (n : Int)
deriving DecidableEq, Repr

/-- The computed-key record update { ...course, [field]: value }.  Every
call site of the source passes a value of the field's declared type; an
assignment crossing the Course interface types is not representable in the
typed model and leaves the course unchanged. -/
def setCourseField (c : Course) : CourseField → FieldValue → Course
  | .id, .str v => { c with id := v }
  | .name, .str v => { c with name := v }
  | .grade, .str v => { c with grade := v }
  | .credits, .num v => { c with credits := v }
  | _, _ => c

/-- updateCourse: triple-nested map replacing the matching course by the
course with one field updated. -/
def updateCourse (years : List Year) (yearId semesterId courseId : String)
    (field : CourseField) (value : FieldValue) : List Year :=
  years.map fun y =>
    if y.id = yearId then
      { y with semesters := y.semesters.map fun s =>
          if s.id = semesterId then
            { s with courses := s.courses.map fun c =>
                if c.id = courseId then setCourseField c field value else c }
          else s }
    else y

/-- removeCourse: inside the matching year and semester, drop every course
whose id matches. -/
def removeCourse (years : List Year) (yearId semesterId courseId : String) : List Year :=
  years.map fun y =>
    if y.id = yearId then
      { y with semesters := y.semesters.map fun s =>
          if s.id = semesterId then
            { s with courses := s.courses.filter (fun c => c.id ≠ courseId) }
          else s }
    else y

/-- The credits input onChange handler: coerce the raw input string and
store it through updateCourse under the credits field. -/
def creditsOnChange (years : List Year) (yearId semesterId courseId : String)
    (input : String) : List Year :=
  updateCourse years yearId semesterId courseId CourseField.credits
    (FieldValue.num (creditsInputValue input))

/-! ### Ids of a Year tree and the id-freshness machinery -/

/-- Ids contributed by a semester list: each semester id followed by its
course ids, in order. -/
def semBlockIds (ss : List Semester) : List String :=
  ss.flatMap fun s => s.id :: s.courses.map Course.id

/-- Ids contributed by one year: its own id, then its semester block. -/
def yearIds (y : Year) : List String := y.id :: semBlockIds y.semesters

/-- Every id in the Year tree, in pre-order. -/
def allIds (years : List Year) : List String := years.flatMap yearIds

/-- Key of an id string: its leading decimal value and the remaining
characters.  Ids minted by the application are natStr n or
natStr n ++ -1 / -2, and the key separates exactly those. -/
def idKey (s : String) : ℕ × List Char :=
  (parseDigits (s.data.takeWhile Char.isDigit), s.data.dropWhile Char.isDigit)

/-- Keys of every id in the tree. -/
def idKeys (years : List Year) : List (ℕ × List Char) := (allIds years).map idKey

/-- Keys of the course ids of a course list. -/
def courseKeys (cs : List Course) : List (ℕ × List Char) := (cs.map Course.id).map idKey

/-- Keys contributed by one semester: its id key, then its course keys. -/
def keysSem (s : Semester) : List (ℕ × List Char) := idKey s.id :: courseKeys s.courses

/-- Keys contributed by a semester list. -/
def keysS (ss : List Semester) : List (ℕ × List Char) := (semBlockIds ss).map idKey

/-- Keys contributed by one year. -/
def keysY (y : Year) : List (ℕ × List Char) := (yearIds y).map idKey

/-- Counter seeding of loadData on a non-empty store: the maximum of
parseInt over every id in the loaded tree, plus one.  For the ids this
application writes (leading decimal digits) parseInt yields the leading
decimal value, i.e. the first key component. -/
def loadSeedCounter (loadedYears : List Year) : ℕ :=
  ((allIds loadedYears).map fun i => (idKey i).1).foldl max 0 + 1

/-- UI events that mutate the Year list, with the arguments the
presentation layer passes: the three add operations, the three delete
operations, and the three updateCourse call sites (course name, grade from
the closed select, credits through the input coercion). -/
inductive UiOp where
  | addYearOp
  | addSemesterOp (yearId : String)
  | addCourseOp (yearId semesterId : String)
  | deleteYearOp (yearId : String)
  | deleteSemesterOp (yearId semesterId : String)
  | removeCourseOp (yearId semesterId courseId : String)
  | courseNameOp (yearId semesterId courseId : String) (v : String)
  | courseGradeOp (yearId semesterId courseId : String) (v : String)
  | courseCreditsOp (yearId semesterId courseId : String) (input : String)
deriving DecidableEq, Repr

/-- One UI event applied to the in-memory state (Year list and counter). -/
def applyOp (st : List Year × ℕ) : UiOp → List Year × ℕ
  | .addYearOp => addYear st.1 st.2
  | .addSemesterOp yid => addSemester st.1 st.2 yid
  | .addCourseOp yid sid => addCourse st.1 st.2 yid sid
  | .deleteYearOp yid => (deleteYearList st.1 yid, st.2)
  | .deleteSemesterOp yid sid => (deleteSemester st.1 yid sid, st.2)
  | .removeCourseOp yid sid cid => (removeCourse st.1 yid sid cid, st.2)
  | .courseNameOp yid sid cid v => (updateCourse st.1 yid sid cid .name (.str v), st.2)
  | .courseGradeOp yid sid cid v => (updateCourse st.1 yid sid cid .grade (.str v), st.2)
  | .courseCreditsOp yid sid cid input => (creditsOnChange st.1 yid sid cid input, st.2)

/-- State after a sequence of UI events, starting from the seeded state. -/
def runOps (ops : List UiOp) : List Year × ℕ := ops.foldl applyOp initialState

/-- Invariant carried through every operation: the id keys are pairwise
distinct and every leading decimal value is bounded by the counter. -/
def GoodState (st : List Year × ℕ) : Prop :=
  (idKeys st.1).Nodup ∧ ∀ k ∈ idKeys st.1, k.1 ≤ st.2

/-! ## Lemmas on the decimal printer -/

theorem digitChar_isDigit (d : ℕ) (h : d < 10) : (digitChar d).isDigit := by
  interval_cases d <;> decide

theorem digitVal_digitChar (d : ℕ) (h : d < 10) : digitVal (digitChar d) = d := by
  interval_cases d <;> decide

theorem natChars_digits (n : ℕ) : ∀ c ∈ natChars n, c.isDigit := by
  induction n using Nat.strong_induction_on with
  | _ n ih =>
    rw [natChars]
    by_cases h : n < 10
    · simp only [if_pos h, List.mem_singleton]
      rintro c rfl
      exact digitChar_isDigit n h
    · simp only [if_neg h, List.mem_append, List.mem_singleton]
      rintro c (hc | rfl)
      · exact ih (n / 10) (Nat.div_lt_self (by omega) (by norm_num)) c hc
      · exact digitChar_isDigit _ (Nat.mod_lt _ (by norm_num))

theorem parseDigits_append_one (cs : List Char) (c : Char) :
    parseDigits (cs ++ [c]) = 10 * parseDigits cs + digitVal c := by
  simp [parseDigits, List.foldl_append]

theorem parseDigits_natChars (n : ℕ) : parseDigits (natChars n) = n := by
  induction n using Nat.strong_induction_on with
  | _ n ih =>
    rw [natChars]
    by_cases h : n < 10
    · simp only [if_pos h]
      show 10 * 0 + digitVal (digitChar n) = n
      rw [digitVal_digitChar n h]; omega
    · simp only [if_neg h]
      rw [parseDigits_append_one, ih (n / 10) (Nat.div_lt_self (by omega) (by norm_num)),
        digitVal_digitChar _ (Nat.mod_lt _ (by norm_num))]
      omega

/-! ## Lemmas on the GPA engine, claims C1 and C5 -/

theorem totalCredits_eq_sum (courses : List Course) :
    totalCredits courses = (courses.map Course.credits).sum := by
  rw [totalCredits, List.sum_eq_foldl, List.foldl_map]

theorem foldl_pointsStep (courses : List Course) (a : ℚ)
    (h : ∀ c ∈ courses, (gradePoints c.grade).isSome) :
    courses.foldl pointsStep (some a)
      = some (a + (courses.map fun c => (gradePoints c.grade).getD 0 * (c.credits : ℚ)).sum) := by
  induction courses generalizing a with
  | nil => simp
  | cons c cs ih =>
    have hc : (gradePoints c.grade).isSome := h c (by simp)
    obtain ⟨g, hg⟩ := Option.isSome_iff_exists.mp hc
    simp only [List.foldl_cons, pointsStep, hg]
    rw [ih _ (fun x hx => h x (by simp [hx]))]
    simp only [List.map_cons, List.sum_cons, hg, Option.getD_some, Option.some.injEq]
    ring

theorem totalPoints_eq_sum (courses : List Course)
    (h : ∀ c ∈ courses, (gradePoints c.grade).isSome) :
    totalPoints courses
      = some ((courses.map fun c => (gradePoints c.grade).getD 0 * (c.credits : ℚ)).sum) := by
  rw [totalPoints, foldl_pointsStep courses 0 h, zero_add]

/-- Claim C1: for a course list whose grades all lie in the grade table,
calculateGPA is the credit-weighted mean of the grade points rounded to two
decimal places when the credit sum is positive, and exactly 0 when the list
is empty or the credit sum is 0. -/
theorem claim_C1_calculateGPA_spec (courses : List Course)
    (h : ∀ c ∈ courses, (gradePoints c.grade).isSome) :
    (0 < (courses.map Course.credits).sum →
      calculateGPA courses = some (round2
        ((courses.map fun c => (gradePoints c.grade).getD 0 * (c.credits : ℚ)).sum
          / (((courses.map Course.credits).sum : Int) : ℚ))))
    ∧ ((courses = [] ∨ (courses.map Course.credits).sum = 0) →
      calculateGPA courses = some 0) := by
  constructor
  · intro hpos
    have hS := totalCredits_eq_sum courses
    rw [calculateGPA, if_pos (by rw [hS]; exact hpos), totalPoints_eq_sum courses h, hS]
  · rintro (rfl | hzero)
    · rfl
    · have hS := totalCredits_eq_sum courses
      rw [calculateGPA, if_neg (by rw [hS, hzero]; exact lt_irrefl 0)]

/-- Witness for C1 at the one-course list [(id 4, Calc, grade A, 3 credits)]. -/
theorem claim_C1_witness :
    (∀ c ∈ [Course.mk "4" "Calc" "A" 3], (gradePoints c.grade).isSome)
    ∧ ((0 < ([Course.mk "4" "Calc" "A" 3].map Course.credits).sum →
        calculateGPA [Course.mk "4" "Calc" "A" 3] = some (round2
          (([Course.mk "4" "Calc" "A" 3].map
              fun c => (gradePoints c.grade).getD 0 * (c.credits : ℚ)).sum
            / ((([Course.mk "4" "Calc" "A" 3].map Course.credits).sum : Int) : ℚ))))
      ∧ (([Course.mk "4" "Calc" "A" 3] = ([] : List Course)
          ∨ ([Course.mk "4" "Calc" "A" 3].map Course.credits).sum = 0) →
        calculateGPA [Course.mk "4" "Calc" "A" 3] = some 0)) :=
  ⟨by decide, claim_C1_calculateGPA_spec [Course.mk "4" "Calc" "A" 3] (by decide)⟩

/-- Counterexample to claim C5: on [(A, 3 credits), (B+, 4 credits)] the
weighted sum is 4.0·3 + 3.3·4 = 25.2, so calculateGPA returns
round(25.2/7, 2) = 3.6, which is not the 3.63 the claim states. -/
theorem claim_C5_counterexample :
    calculateGPA [Course.mk "1" "" "A" 3, Course.mk "2" "" "B+" 4] = some (18/5)
    ∧ (18/5 : ℚ) ≠ 363/100 := by
  constructor
  · simp only [calculateGPA, totalCredits, totalPoints, List.foldl_cons, List.foldl_nil,
      pointsStep, gradePoints]
    norm_num [round2, round_eq]
  · norm_num

/-- Amended claim C5: on [(A, 3 credits), (B+, 4 credits)] calculateGPA
returns round((4.0·3 + 3.3·4)/7, 2) = round(3.6, 2) = 3.6. -/
theorem claim_C5_amended :
    calculateGPA [Course.mk "1" "" "A" 3, Course.mk "2" "" "B+" 4] = some (18/5) := by
  simp only [calculateGPA, totalCredits, totalPoints, List.foldl_cons, List.foldl_nil,
    pointsStep, gradePoints]
  norm_num [round2, round_eq]

/-! ## Lemmas on the years store, claim C2 -/

theorem foldlM_addRecord (rest : List Year) : ∀ acc : List Year,
    ((acc ++ rest).map Year.id).Nodup →
    rest.foldlM addRecord acc = Except.ok (acc ++ rest) := by
  induction rest with
  | nil => intro acc _; rw [List.append_nil]; rfl
  | cons y ys ih =>
    intro acc h
    have hy : (acc.any fun r => r.id = y.id) = false := by
      rw [List.any_eq_false]
      intro r hr
      simp only [decide_eq_true_eq]
      intro hEq
      rw [List.map_append, List.nodup_append] at h
      exact h.2.2 (List.mem_map_of_mem Year.id hr) (by rw [hEq]; simp)
    have hstep : addRecord acc y = Except.ok (acc ++ [y]) := by
      rw [addRecord, hy]; rfl
    have h' : (((acc ++ [y]) ++ ys).map Year.id).Nodup := by
      rwa [List.append_assoc, List.singleton_append]
    calc (y :: ys).foldlM addRecord acc
        = addRecord acc y >>= fun b => ys.foldlM addRecord b := by
          simp [List.foldlM_cons]
      _ = ys.foldlM addRecord (acc ++ [y]) := by rw [hstep]; rfl
      _ = Except.ok ((acc ++ [y]) ++ ys) := ih (acc ++ [y]) h'
      _ = Except.ok (acc ++ y :: ys) := by rw [List.append_assoc, List.singleton_append]

/-- Claim C2: saving a Year list whose ids are pairwise distinct replaces
the whole years collection: whatever the store held before, afterwards it
holds exactly the records of the saved list, in order. -/
theorem claim_C2_saveData_replaces (data store : List Year)
    (h : (data.map Year.id).Nodup) :
    saveData data store = Except.ok data := by
  rw [saveData]
  have := foldlM_addRecord data [] (by simpa using h)
  simpa using this

/-- Witness for C2: saving one year over a non-empty stale store. -/
theorem claim_C2_witness :
    (([Year.mk "1" "Year 1" []].map Year.id).Nodup)
    ∧ saveData [Year.mk "1" "Year 1" []] [Year.mk "9" "stale" []]
        = Except.ok [Year.mk "1" "Year 1" []] :=
  ⟨by decide, claim_C2_saveData_replaces _ _ (by decide)⟩

/-! ## Lemmas on the profile store, claim C3 -/

theorem find?_map_put (r : ProfileRecord) (l : List ProfileRecord)
    (h : (l.any fun x => x.id = r.id) = true) :
    (l.map fun x => if x.id = r.id then r else x).find? (fun x => x.id = r.id) = some r := by
  induction l with
  | nil => simp at h
  | cons a t ih =>
    by_cases ha : a.id = r.id
    · simp only [List.map_cons, if_pos ha]
      exact List.find?_cons_of_pos _ (by simp)
    · simp only [List.map_cons, if_neg ha]
      rw [List.find?_cons_of_neg _ (by simp [ha])]
      apply ih
      simpa [ha] using h

theorem find?_append_of_none (l₁ l₂ : List ProfileRecord) (p : ProfileRecord → Bool)
    (h : ∀ x ∈ l₁, p x = false) : (l₁ ++ l₂).find? p = l₂.find? p := by
  induction l₁ with
  | nil => rfl
  | cons a t ih =>
    rw [List.cons_append, List.find?_cons_of_neg _ (by simp [h a (by simp)])]
    exact ih (fun x hx => h x (by simp [hx]))

theorem getRecord_putRecord (store : List ProfileRecord) (r : ProfileRecord) :
    getRecord (putRecord store r) r.id = some r := by
  rw [getRecord, putRecord]
  by_cases h : (store.any fun x => x.id = r.id) = true
  · rw [if_pos h]
    exact find?_map_put r store h
  · rw [if_neg h]
    rw [find?_append_of_none store [r] _ ?_]
    · exact List.find?_cons_of_pos _ (by simp)
    · intro x hx
      rw [List.any_eq_true] at h
      push_neg at h
      simpa using h x hx

theorem loadProfile_saveUserProfile (p : UserProfile) (store : List ProfileRecord) :
    loadProfile (saveUserProfile p store) = p := by
  rw [loadProfile, saveUserProfile]
  have h := getRecord_putRecord store (ProfileRecord.mk p "user")
  rw [show (ProfileRecord.mk p "user").id = "user" from rfl] at h
  rw [h]

/-- Claim C3: a profile saved through the Save action is the profile loaded
at the next startup, and the Delete action followed by a reload yields the
all-empty default profile. -/
theorem claim_C3_profile_roundtrip (p : UserProfile) (store : List ProfileRecord) :
    loadProfile (saveUserProfile p store) = p
    ∧ loadProfile (handleDeleteProfile store) = emptyProfile
    ∧ emptyProfile = UserProfile.mk "" "" "" "" :=
  ⟨loadProfile_saveUserProfile p store, loadProfile_saveUserProfile emptyProfile store, rfl⟩

/-! ## Claim C6: the credits coercion and negative input -/

/-- Claim C6 fails on the code: the coercion parseInt(input) || 0 does not
substitute 0 for negative input; on the input string -5 it stores the
negative credit value -5, which then sits in the Year tree.  Unparsable
input does coerce to 0. -/
theorem claim_C6_negative_credits :
    creditsInputValue "-5" = -5
    ∧ creditsInputValue "-5" < 0
    ∧ creditsInputValue "abc" = 0
    ∧ creditsOnChange
        [Year.mk "1" "Year 1" [Semester.mk "1-1" "Semester 1" [Course.mk "9" "Math" "A" 3]]]
        "1" "1-1" "9" "-5"
      = [Year.mk "1" "Year 1" [Semester.mk "1-1" "Semester 1" [Course.mk "9" "Math" "A" (-5)]]] := by
  refine ⟨by decide, by decide, by decide, by decide⟩

/-! ## List helper lemmas -/

theorem map_id_of_mem {α : Type} (l : List α) (f : α → α) (h : ∀ x ∈ l, f x = x) :
    l.map f = l := by
  induction l with
  | nil => rfl
  | cons a t ih =>
    rw [List.map_cons, h a (by simp), ih (fun x hx => h x (by simp [hx]))]

theorem allIds_cons (y : Year) (ys : List Year) :
    allIds (y :: ys) = yearIds y ++ allIds ys := by
  simp [allIds]

theorem allIds_append (l₁ l₂ : List Year) :
    allIds (l₁ ++ l₂) = allIds l₁ ++ allIds l₂ := by
  simp [allIds]

theorem mem_allIds_of {i : String} {y : Year} {ys : List Year}
    (hy : y ∈ ys) (hi : i ∈ yearIds y) : i ∈ allIds ys := by
  rw [allIds, List.mem_flatMap]
  exact ⟨y, hy, hi⟩

theorem exists_of_mem_allIds {i : String} {ys : List Year} (h : i ∈ allIds ys) :
    ∃ y ∈ ys, i ∈ yearIds y := by
  rwa [allIds, List.mem_flatMap] at h

theorem yearId_mem_yearIds (y : Year) : y.id ∈ yearIds y := by simp [yearIds]

theorem semesterId_mem_yearIds {s : Semester} {y : Year} (hs : s ∈ y.semesters) :
    s.id ∈ yearIds y := by
  rw [yearIds, List.mem_cons]
  right
  rw [semBlockIds, List.mem_flatMap]
  exact ⟨s, hs, by simp⟩

theorem courseId_mem_yearIds {c : Course} {s : Semester} {y : Year}
    (hs : s ∈ y.semesters) (hc : c ∈ s.courses) : c.id ∈ yearIds y := by
  rw [yearIds, List.mem_cons]
  right
  rw [semBlockIds, List.mem_flatMap]
  exact ⟨s, hs, List.mem_cons.mpr (Or.inr (List.mem_map_of_mem Course.id hc))⟩

/-! ## Claim C8: deleteYear removes the year, its descendants and its
expanded-set entry -/

theorem block_of_nodup (years : List Year) (h : (allIds years).Nodup)
    {y y' : Year} (hy : y ∈ years) (hy' : y' ∈ years) {i : String}
    (hi : i ∈ yearIds y) (hi' : i ∈ yearIds y') : y.id = y'.id := by
  induction years with
  | nil => cases hy
  | cons z zs ih =>
    rw [allIds_cons, List.nodup_append] at h
    rcases List.mem_cons.mp hy with rfl | hy₂ <;>
      rcases List.mem_cons.mp hy' with rfl | hy₂'
    · rfl
    · exact absurd (mem_allIds_of hy₂' hi') (h.2.2 hi)
    · exact absurd (mem_allIds_of hy₂ hi) (h.2.2 hi')
    · exact ih h.2.1 hy₂ hy₂'

/-- Claim C8: for a year id present in a tree with pairwise-distinct ids,
deleteYear removes that year together with every descendant semester and
course id, keeps every other year (in order, unchanged), and erases the id
from the expanded-years set. -/
theorem claim_C8_deleteYear (years : List Year) (expanded : Finset String) (yearId : String)
    (hNodup : (allIds years).Nodup) (hmem : yearId ∈ years.map Year.id) :
    (∀ y ∈ years, y.id = yearId →
      ∀ i ∈ yearIds y, i ∉ allIds (deleteYear years expanded yearId).1)
    ∧ (∀ y ∈ years, y.id ≠ yearId → y ∈ (deleteYear years expanded yearId).1)
    ∧ (deleteYear years expanded yearId).1.Sublist years
    ∧ (deleteYear years expanded yearId).2 = expanded.erase yearId := by
  refine ⟨?_, ?_, ?_, rfl⟩
  · intro y hy hid i hi hcontra
    obtain ⟨y', hy', hi'⟩ := exists_of_mem_allIds hcontra
    rw [deleteYear] at hy'
    simp only [deleteYearList, List.mem_filter, decide_eq_true_eq] at hy'
    exact hy'.2 (by rw [← block_of_nodup years hNodup hy hy'.1 hi hi', hid])
  · intro y hy hne
    simp only [deleteYear, deleteYearList, List.mem_filter, decide_eq_true_eq]
    exact ⟨hy, hne⟩
  · exact List.filter_sublist years

/-- Witness for C8: deleting year 1 from a two-year tree. -/
theorem claim_C8_witness :
    ((allIds [initialYear, Year.mk "2" "Year 2" []]).Nodup
      ∧ "1" ∈ [initialYear, Year.mk "2" "Year 2" []].map Year.id)
    ∧ ((∀ y ∈ [initialYear, Year.mk "2" "Year 2" []], y.id = "1" →
        ∀ i ∈ yearIds y,
          i ∉ allIds (deleteYear [initialYear, Year.mk "2" "Year 2" []] {"1", "2"} "1").1)
      ∧ (∀ y ∈ [initialYear, Year.mk "2" "Year 2" []], y.id ≠ "1" →
          y ∈ (deleteYear [initialYear, Year.mk "2" "Year 2" []] {"1", "2"} "1").1)
      ∧ (deleteYear [initialYear, Year.mk "2" "Year 2" []] {"1", "2"} "1").1.Sublist
          [initialYear, Year.mk "2" "Year 2" []]
      ∧ (deleteYear [initialYear, Year.mk "2" "Year 2" []] {"1", "2"} "1").2
          = ({"1", "2"} : Finset String).erase "1") :=
  ⟨⟨by decide, by decide⟩,
    claim_C8_deleteYear [initialYear, Year.mk "2" "Year 2" []] {"1", "2"} "1"
      (by decide) (by decide)⟩

/-! ## Claim C9: deletes with an unknown id are silent no-ops -/

/-- Claim C9: an id that occurs nowhere in the Year tree makes deleteYear,
deleteSemester and removeCourse (the unknown id in any argument position)
return the Year list unchanged; the operations are total, so no error is
raised. -/
theorem claim_C9_unknown_id_noop (years : List Year) (badId : String)
    (h : badId ∉ allIds years) :
    deleteYearList years badId = years
    ∧ (∀ semesterId, deleteSemester years badId semesterId = years)
    ∧ (∀ yearId, deleteSemester years yearId badId = years)
    ∧ (∀ semesterId courseId, removeCourse years badId semesterId courseId = years)
    ∧ (∀ yearId courseId, removeCourse years yearId badId courseId = years)
    ∧ (∀ yearId semesterId, removeCourse years yearId semesterId badId = years) := by
  have hYear : ∀ y ∈ years, y.id ≠ badId := by
    intro y hy hEq
    exact h (hEq ▸ mem_allIds_of hy (yearId_mem_yearIds y))
  have hSem : ∀ y ∈ years, ∀ s ∈ y.semesters, s.id ≠ badId := by
    intro y hy s hs hEq
    exact h (hEq ▸ mem_allIds_of hy (semesterId_mem_yearIds hs))
  have hCourse : ∀ y ∈ years, ∀ s ∈ y.semesters, ∀ c ∈ s.courses, c.id ≠ badId := by
    intro y hy s hs c hc hEq
    exact h (hEq ▸ mem_allIds_of hy (courseId_mem_yearIds hs hc))
  refine ⟨?_, ?_, ?_, ?_, ?_, ?_⟩
  · rw [deleteYearList, List.filter_eq_self]
    intro y hy
    simpa using hYear y hy
  · intro semesterId
    rw [deleteSemester]
    apply map_id_of_mem
    intro y hy
    rw [if_neg (hYear y hy)]
  · intro yearId
    rw [deleteSemester]
    apply map_id_of_mem
    intro y hy
    by_cases hyid : y.id = yearId
    · rw [if_pos hyid]
      have : y.semesters.filter (fun s => s.id ≠ badId) = y.semesters := by
        rw [List.filter_eq_self]
        intro s hs
        simpa using hSem y hy s hs
      rw [this]
    · rw [if_neg hyid]
  · intro semesterId courseId
    rw [removeCourse]
    apply map_id_of_mem
    intro y hy
    rw [if_neg (hYear y hy)]
  · intro yearId courseId
    rw [removeCourse]
    apply map_id_of_mem
    intro y hy
    by_cases hyid : y.id = yearId
    · rw [if_pos hyid]
      have : (y.semesters.map fun s =>
          if s.id = badId then
            { s with courses := s.courses.filter (fun c => c.id ≠ courseId) }
          else s) = y.semesters := by
        apply map_id_of_mem
        intro s hs
        rw [if_neg (hSem y hy s hs)]
      rw [this]
    · rw [if_neg hyid]
  · intro yearId semesterId
    rw [removeCourse]
    apply map_id_of_mem
    intro y hy
    by_cases hyid : y.id = yearId
    · rw [if_pos hyid]
      have : (y.semesters.map fun s =>
          if s.id = semesterId then
            { s with courses := s.courses.filter (fun c => c.id ≠ badId) }
          else s) = y.semesters := by
        apply map_id_of_mem
        intro s hs
        by_cases hsid : s.id = semesterId
        · rw [if_pos hsid]
          have : s.courses.filter (fun c => c.id ≠ badId) = s.courses := by
            rw [List.filter_eq_self]
            intro c hc
            simpa using hCourse y hy s hs c hc
          rw [this]
        · rw [if_neg hsid]
      rw [this]
    · rw [if_neg hyid]

/-- Witness for C9: the id 7 occurs nowhere in the seeded tree. -/
theorem claim_C9_witness :
    ("7" ∉ allIds [initialYear])
    ∧ (deleteYearList [initialYear] "7" = [initialYear]
      ∧ (∀ semesterId, deleteSemester [initialYear] "7" semesterId = [initialYear])
      ∧ (∀ yearId, deleteSemester [initialYear] yearId "7" = [initialYear])
      ∧ (∀ semesterId courseId, removeCourse [initialYear] "7" semesterId courseId = [initialYear])
      ∧ (∀ yearId courseId, removeCourse [initialYear] yearId "7" courseId = [initialYear])
      ∧ (∀ yearId semesterId, removeCourse [initialYear] yearId semesterId "7" = [initialYear])) :=
  ⟨by decide, claim_C9_unknown_id_noop [initialYear] "7" (by decide)⟩

/-! ## Claim C7: addSemester appends one defaulted semester to the matching
year -/

theorem addSemester_no_match (ys : List Year) (c : ℕ) (yearId : String)
    (h : ∀ y ∈ ys, y.id ≠ yearId) : addSemester ys c yearId = (ys, c) := by
  induction ys with
  | nil => rfl
  | cons y t ih =>
    have hne : y.id ≠ yearId := h y (by simp)
    simp only [addSemester, if_neg hne]
    rw [ih (fun x hx => h x (by simp [hx]))]

/-- Claim C7: when the year with id y.id occurs exactly once, addSemester
leaves every other year and the order untouched and appends to y one new
empty semester whose id is the freshly incremented counter value and whose
name is Semester (prior semester count + 1); the counter advances by one. -/
theorem claim_C7_addSemester (pre post : List Year) (y : Year) (c : ℕ)
    (hpre : ∀ z ∈ pre, z.id ≠ y.id) (hpost : ∀ z ∈ post, z.id ≠ y.id) :
    addSemester (pre ++ y :: post) c y.id =
      (pre ++ { y with semesters := y.semesters ++
          [Semester.mk (natStr (c + 1))
            ("Semester " ++ natStr (y.semesters.length + 1)) []] } :: post,
       c + 1) := by
  induction pre with
  | nil =>
    simp only [List.nil_append, addSemester, eq_self_iff_true, if_true]
    rw [addSemester_no_match post (c + 1) y.id hpost]
  | cons z t ih =>
    have hz : z.id ≠ y.id := hpre z (by simp)
    rw [List.cons_append]
    simp only [addSemester, if_neg hz, List.append_eq]
    rw [ih (fun x hx => hpre x (by simp [hx]))]
    rfl

/-- Witness for C7: adding a semester to the seeded year. -/
theorem claim_C7_witness :
    ((∀ z ∈ ([] : List Year), z.id ≠ initialYear.id)
      ∧ (∀ z ∈ ([] : List Year), z.id ≠ initialYear.id))
    ∧ addSemester ([] ++ initialYear :: []) 1 initialYear.id =
        ([] ++ { initialYear with semesters := initialYear.semesters ++
            [Semester.mk (natStr (1 + 1))
              ("Semester " ++ natStr (initialYear.semesters.length + 1)) []] } :: [],
         1 + 1) :=
  ⟨⟨by simp, by simp⟩, claim_C7_addSemester [] [] initialYear 1 (by simp) (by simp)⟩

/-! ## Claim C10: updateCourse touches exactly one field of one course -/

/-- Claim C10: when each of the three ids matches exactly one node along
the path, updateCourse rewrites only the matching course, replacing it by
the course with the selected field set, and leaves every other course,
semester and year — their ids, names and order — unchanged; the setter
changes no field other than the selected one. -/
theorem claim_C10_updateCourse_frame
    (preY postY : List Year) (yid yname : String) (preS postS : List Semester)
    (sid sname : String) (preC postC : List Course) (c0 : Course)
    (f : CourseField) (v : FieldValue)
    (hY : ∀ z ∈ preY ++ postY, z.id ≠ yid)
    (hS : ∀ z ∈ preS ++ postS, z.id ≠ sid)
    (hC : ∀ z ∈ preC ++ postC, z.id ≠ c0.id) :
    updateCourse
        (preY ++ Year.mk yid yname
          (preS ++ Semester.mk sid sname (preC ++ c0 :: postC) :: postS) :: postY)
        yid sid c0.id f v
      = preY ++ Year.mk yid yname
          (preS ++ Semester.mk sid sname
            (preC ++ setCourseField c0 f v :: postC) :: postS) :: postY
    ∧ (f ≠ CourseField.id → (setCourseField c0 f v).id = c0.id)
    ∧ (f ≠ CourseField.name → (setCourseField c0 f v).name = c0.name)
    ∧ (f ≠ CourseField.grade → (setCourseField c0 f v).grade = c0.grade)
    ∧ (f ≠ CourseField.credits → (setCourseField c0 f v).credits = c0.credits) := by
  refine ⟨?_, ?_, ?_, ?_, ?_⟩
  · rw [updateCourse, List.map_append, List.map_cons]
    have hCmap : (preC ++ c0 :: postC).map
        (fun c => if c.id = c0.id then setCourseField c f v else c)
        = preC ++ setCourseField c0 f v :: postC := by
      rw [List.map_append, List.map_cons, if_pos rfl]
      rw [map_id_of_mem preC _ (fun z hz =>
        if_neg (hC z (List.mem_append_left _ hz)))]
      rw [map_id_of_mem postC _ (fun z hz =>
        if_neg (hC z (List.mem_append_right _ (by simp [hz]))))]
    have hSmap : (preS ++ Semester.mk sid sname (preC ++ c0 :: postC) :: postS).map
        (fun s => if s.id = sid then
            { s with courses := s.courses.map fun c =>
                if c.id = c0.id then setCourseField c f v else c }
          else s)
        = preS ++ Semester.mk sid sname (preC ++ setCourseField c0 f v :: postC) :: postS := by
      rw [List.map_append, List.map_cons, if_pos rfl]
      rw [map_id_of_mem preS _ (fun z hz =>
        if_neg (hS z (List.mem_append_left _ hz)))]
      rw [map_id_of_mem postS _ (fun z hz =>
        if_neg (hS z (List.mem_append_right _ (by simp [hz]))))]
      show preS ++ Semester.mk sid sname ((preC ++ c0 :: postC).map _) :: postS = _
      rw [hCmap]
    rw [map_id_of_mem preY _ (fun z hz =>
      if_neg (hY z (List.mem_append_left _ hz)))]
    rw [map_id_of_mem postY _ (fun z hz =>
      if_neg (hY z (List.mem_append_right _ (by simp [hz]))))]
    rw [if_pos rfl]
    show preY ++ Year.mk yid yname
        ((preS ++ Semester.mk sid sname (preC ++ c0 :: postC) :: postS).map _) :: postY = _
    rw [hSmap]
  · cases f <;> cases v <;> simp [setCourseField]
  · cases f <;> cases v <;> simp [setCourseField]
  · cases f <;> cases v <;> simp [setCourseField]
  · cases f <;> cases v <;> simp [setCourseField]

/-- Witness for C10: renaming the only course of a one-year tree. -/
theorem claim_C10_witness :
    ((∀ z ∈ ([] : List Year) ++ ([] : List Year), z.id ≠ "1")
      ∧ (∀ z ∈ ([] : List Semester) ++ ([] : List Semester), z.id ≠ "1-1")
      ∧ (∀ z ∈ ([] : List Course) ++ ([] : List Course), z.id ≠ (Course.mk "9" "Math" "A" 3).id))
    ∧ (updateCourse
        ([] ++ Year.mk "1" "Year 1"
          ([] ++ Semester.mk "1-1" "Semester 1"
            ([] ++ Course.mk "9" "Math" "A" 3 :: []) :: []) :: [])
        "1" "1-1" (Course.mk "9" "Math" "A" 3).id CourseField.name (FieldValue.str "Algebra")
      = [] ++ Year.mk "1" "Year 1"
          ([] ++ Semester.mk "1-1" "Semester 1"
            ([] ++ setCourseField (Course.mk "9" "Math" "A" 3)
              CourseField.name (FieldValue.str "Algebra") :: []) :: []) :: []
      ∧ (CourseField.name ≠ CourseField.id →
          (setCourseField (Course.mk "9" "Math" "A" 3)
            CourseField.name (FieldValue.str "Algebra")).id = (Course.mk "9" "Math" "A" 3).id)
      ∧ (CourseField.name ≠ CourseField.name →
          (setCourseField (Course.mk "9" "Math" "A" 3)
            CourseField.name (FieldValue.str "Algebra")).name = (Course.mk "9" "Math" "A" 3).name)
      ∧ (CourseField.name ≠ CourseField.grade →
          (setCourseField (Course.mk "9" "Math" "A" 3)
            CourseField.name (FieldValue.str "Algebra")).grade = (Course.mk "9" "Math" "A" 3).grade)
      ∧ (CourseField.name ≠ CourseField.credits →
          (setCourseField (Course.mk "9" "Math" "A" 3)
            CourseField.name (FieldValue.str "Algebra")).credits
            = (Course.mk "9" "Math" "A" 3).credits)) :=
  ⟨⟨by simp, by simp, by simp⟩,
    claim_C10_updateCourse_frame [] [] "1" "Year 1" [] [] "1-1" "Semester 1" [] []
      (Course.mk "9" "Math" "A" 3) CourseField.name (FieldValue.str "Algebra")
      (by simp) (by simp) (by simp)⟩

/-! ## Claim C4: id keys of freshly minted ids -/

theorem takeWhile_append_of (p : Char → Bool) (cs ds : List Char)
    (h : ∀ c ∈ cs, p c) (hd : ∀ d, ds.head? = some d → p d = false) :
    (cs ++ ds).takeWhile p = cs ∧ (cs ++ ds).dropWhile p = ds := by
  induction cs with
  | nil =>
    cases ds with
    | nil => exact ⟨rfl, rfl⟩
    | cons d ds2 =>
      have hfalse := hd d rfl
      constructor
      · simp [List.takeWhile_cons, hfalse]
      · simp [List.dropWhile_cons, hfalse]
  | cons c cs2 ih =>
    have hc : p c = true := h c (by simp)
    obtain ⟨ih1, ih2⟩ := ih (fun x hx => h x (by simp [hx]))
    constructor
    · rw [List.cons_append]
      simp [List.takeWhile_cons, hc, ih1]
    · rw [List.cons_append]
      simp [List.dropWhile_cons, hc, ih2]

theorem idKey_natStr (n : ℕ) : idKey (natStr n) = (n, []) := by
  rw [idKey]
  have h := natChars_digits n
  rw [show (natStr n).data = natChars n from rfl]
  rw [List.takeWhile_eq_self_iff.mpr h, List.dropWhile_eq_nil_iff.mpr h, parseDigits_natChars]

theorem idKey_natStr_concat (n : ℕ) (t : String)
    (hd : ∀ d, t.data.head? = some d → d.isDigit = false) :
    idKey (natStr n ++ t) = (n, t.data) := by
  rw [idKey, String.data_append]
  rw [show (natStr n).data = natChars n from rfl]
  obtain ⟨h1, h2⟩ := takeWhile_append_of Char.isDigit (natChars n) t.data (natChars_digits n) hd
  rw [h1, h2, parseDigits_natChars]

theorem idKey_natStr_dash1 (n : ℕ) : idKey (natStr n ++ "-1") = (n, ['-', '1']) := by
  apply idKey_natStr_concat
  intro d hd
  rw [show ("-1" : String).data = ['-', '1'] from rfl] at hd
  simp only [List.head?_cons, Option.some.injEq] at hd
  rw [← hd]
  decide

theorem idKey_natStr_dash2 (n : ℕ) : idKey (natStr n ++ "-2") = (n, ['-', '2']) := by
  apply idKey_natStr_concat
  intro d hd
  rw [show ("-2" : String).data = ['-', '2'] from rfl] at hd
  simp only [List.head?_cons, Option.some.injEq] at hd
  rw [← hd]
  decide

/-! ## Claim C4: key-list decompositions -/

theorem keysS_cons (s : Semester) (ss : List Semester) :
    keysS (s :: ss) = keysSem s ++ keysS ss := by
  simp [keysS, keysSem, semBlockIds, courseKeys]

theorem keysY_eq (y : Year) : keysY y = idKey y.id :: keysS y.semesters := by
  simp [keysY, keysS, yearIds]

theorem idKeys_cons (y : Year) (ys : List Year) :
    idKeys (y :: ys) = keysY y ++ idKeys ys := by
  simp [idKeys, keysY, allIds_cons]

theorem idKeys_append (l₁ l₂ : List Year) :
    idKeys (l₁ ++ l₂) = idKeys l₁ ++ idKeys l₂ := by
  simp [idKeys, allIds_append]

theorem keysY_append_emptySem (y : Year) (n : ℕ) (nm : String) :
    keysY { y with semesters := y.semesters ++ [Semester.mk (natStr n) nm []] }
      = keysY y ++ [(n, [])] := by
  simp [keysY, yearIds, semBlockIds, idKey_natStr]

theorem keysSem_append_defaultCourse (s : Semester) (n : ℕ) :
    keysSem { s with courses := s.courses ++ [Course.mk (natStr n) "" "A" 3] }
      = keysSem s ++ [(n, [])] := by
  simp [keysSem, courseKeys, idKey_natStr]

theorem keysY_newYear (c : ℕ) (nm : String) :
    keysY (Year.mk (natStr (c + 1)) nm
      [Semester.mk (natStr (c + 1) ++ "-1") "Semester 1" [],
       Semester.mk (natStr (c + 1) ++ "-2") "Semester 2" []])
      = [(c + 1, []), (c + 1, ['-', '1']), (c + 1, ['-', '2'])] := by
  simp [keysY, yearIds, semBlockIds, idKey_natStr, idKey_natStr_dash1, idKey_natStr_dash2]

/-! ## Claim C4: the three add operations mint fresh keys -/

theorem addSemester_counter_le (yid : String) : ∀ (ys : List Year) (c : ℕ),
    c ≤ (addSemester ys c yid).2 := by
  intro ys
  induction ys with
  | nil => intro c; simp [addSemester]
  | cons y t ih =>
    intro c
    by_cases hy : y.id = yid
    · simp only [addSemester, if_pos hy]
      exact le_trans (Nat.le_succ c) (ih (c + 1))
    · simp only [addSemester, if_neg hy]
      exact ih c

theorem addSemester_keys (yid : String) : ∀ (ys : List Year) (c : ℕ),
    ∀ k ∈ idKeys (addSemester ys c yid).1,
      k ∈ idKeys ys ∨ (c < k.1 ∧ k.1 ≤ (addSemester ys c yid).2) := by
  intro ys
  induction ys with
  | nil => intro c k hk; simp [addSemester, idKeys, allIds] at hk
  | cons y t ih =>
    intro c k hk
    by_cases hy : y.id = yid
    · simp only [addSemester, if_pos hy] at hk ⊢
      rw [idKeys_cons, keysY_append_emptySem] at hk
      rw [idKeys_cons]
      rcases List.mem_append.mp hk with hk1 | hk2
      · rcases List.mem_append.mp hk1 with hk3 | hk4
        · exact Or.inl (List.mem_append_left _ hk3)
        · have hkEq : k = (c + 1, ([] : List Char)) := by simpa using hk4
          refine Or.inr ⟨?_, ?_⟩
          · rw [hkEq]; exact Nat.lt_succ_self c
          · rw [hkEq]; exact addSemester_counter_le yid t (c + 1)
      · rcases ih (c + 1) k hk2 with h | h
        · exact Or.inl (List.mem_append_right _ h)
        · exact Or.inr ⟨by omega, h.2⟩
    · simp only [addSemester, if_neg hy] at hk ⊢
      rw [idKeys_cons] at hk
      rw [idKeys_cons]
      rcases List.mem_append.mp hk with hk1 | hk2
      · exact Or.inl (List.mem_append_left _ hk1)
      · rcases ih c k hk2 with h | h
        · exact Or.inl (List.mem_append_right _ h)
        · exact Or.inr h

theorem addSemester_nodup (yid : String) : ∀ (ys : List Year) (c : ℕ),
    (idKeys ys).Nodup → (∀ k ∈ idKeys ys, k.1 ≤ c) →
    (idKeys (addSemester ys c yid).1).Nodup := by
  intro ys
  induction ys with
  | nil => intro c _ _; simp [addSemester, idKeys, allIds]
  | cons y t ih =>
    intro c hnd hbd
    rw [idKeys_cons, List.nodup_append] at hnd
    obtain ⟨hndY, hndT, hdisj⟩ := hnd
    have hbdY : ∀ k ∈ keysY y, k.1 ≤ c :=
      fun k hk => hbd k (by rw [idKeys_cons]; exact List.mem_append_left _ hk)
    have hbdT : ∀ k ∈ idKeys t, k.1 ≤ c :=
      fun k hk => hbd k (by rw [idKeys_cons]; exact List.mem_append_right _ hk)
    by_cases hy : y.id = yid
    · simp only [addSemester, if_pos hy]
      rw [idKeys_cons, keysY_append_emptySem, List.nodup_append]
      refine ⟨?_, ?_, ?_⟩
      · rw [List.nodup_append]
        refine ⟨hndY, List.nodup_singleton _, ?_⟩
        intro a ha hmem2
        have haEq : a = (c + 1, ([] : List Char)) := by simpa using hmem2
        have hb := hbdY a ha
        rw [haEq] at hb
        simp at hb
      · exact ih (c + 1) hndT (fun k hk => le_trans (hbdT k hk) (Nat.le_succ c))
      · intro a ha hmem2
        rcases addSemester_keys yid t (c + 1) a hmem2 with h | h
        · rcases List.mem_append.mp ha with h1 | h2
          · exact hdisj h1 h
          · have haEq : a = (c + 1, ([] : List Char)) := by simpa using h2
            have hb := hbdT a h
            rw [haEq] at hb
            simp at hb
        · rcases List.mem_append.mp ha with h1 | h2
          · have hb := hbdY a h1
            omega
          · have haEq : a = (c + 1, ([] : List Char)) := by simpa using h2
            rw [haEq] at h
            simp at h
    · simp only [addSemester, if_neg hy]
      rw [idKeys_cons, List.nodup_append]
      refine ⟨hndY, ih c hndT hbdT, ?_⟩
      intro a ha hmem2
      rcases addSemester_keys yid t c a hmem2 with h | h
      · exact hdisj ha h
      · have hb := hbdY a ha
        omega

theorem addCourseSems_counter_le (sid : String) : ∀ (ss : List Semester) (c : ℕ),
    c ≤ (addCourseSems ss c sid).2 := by
  intro ss
  induction ss with
  | nil => intro c; simp [addCourseSems]
  | cons s t ih =>
    intro c
    by_cases hs : s.id = sid
    · simp only [addCourseSems, if_pos hs]
      exact le_trans (Nat.le_succ c) (ih (c + 1))
    · simp only [addCourseSems, if_neg hs]
      exact ih c

theorem addCourseSems_keys (sid : String) : ∀ (ss : List Semester) (c : ℕ),
    ∀ k ∈ keysS (addCourseSems ss c sid).1,
      k ∈ keysS ss ∨ (c < k.1 ∧ k.1 ≤ (addCourseSems ss c sid).2) := by
  intro ss
  induction ss with
  | nil => intro c k hk; simp [addCourseSems, keysS, semBlockIds] at hk
  | cons s t ih =>
    intro c k hk
    by_cases hs : s.id = sid
    · simp only [addCourseSems, if_pos hs] at hk ⊢
      rw [keysS_cons, keysSem_append_defaultCourse] at hk
      rw [keysS_cons]
      rcases List.mem_append.mp hk with hk1 | hk2
      · rcases List.mem_append.mp hk1 with hk3 | hk4
        · exact Or.inl (List.mem_append_left _ hk3)
        · have hkEq : k = (c + 1, ([] : List Char)) := by simpa using hk4
          refine Or.inr ⟨?_, ?_⟩
          · rw [hkEq]; exact Nat.lt_succ_self c
          · rw [hkEq]; exact addCourseSems_counter_le sid t (c + 1)
      · rcases ih (c + 1) k hk2 with h | h
        · exact Or.inl (List.mem_append_right _ h)
        · exact Or.inr ⟨by omega, h.2⟩
    · simp only [addCourseSems, if_neg hs] at hk ⊢
      rw [keysS_cons] at hk
      rw [keysS_cons]
      rcases List.mem_append.mp hk with hk1 | hk2
      · exact Or.inl (List.mem_append_left _ hk1)
      · rcases ih c k hk2 with h | h
        · exact Or.inl (List.mem_append_right _ h)
        · exact Or.inr h

theorem addCourseSems_nodup (sid : String) : ∀ (ss : List Semester) (c : ℕ),
    (keysS ss).Nodup → (∀ k ∈ keysS ss, k.1 ≤ c) →
    (keysS (addCourseSems ss c sid).1).Nodup := by
  intro ss
  induction ss with
  | nil => intro c _ _; simp [addCourseSems, keysS, semBlockIds]
  | cons s t ih =>
    intro c hnd hbd
    rw [keysS_cons, List.nodup_append] at hnd
    obtain ⟨hndS, hndT, hdisj⟩ := hnd
    have hbdS : ∀ k ∈ keysSem s, k.1 ≤ c :=
      fun k hk => hbd k (by rw [keysS_cons]; exact List.mem_append_left _ hk)
    have hbdT : ∀ k ∈ keysS t, k.1 ≤ c :=
      fun k hk => hbd k (by rw [keysS_cons]; exact List.mem_append_right _ hk)
    by_cases hs : s.id = sid
    · simp only [addCourseSems, if_pos hs]
      rw [keysS_cons, keysSem_append_defaultCourse, List.nodup_append]
      refine ⟨?_, ?_, ?_⟩
      · rw [List.nodup_append]
        refine ⟨hndS, List.nodup_singleton _, ?_⟩
        intro a ha hmem2
        have haEq : a = (c + 1, ([] : List Char)) := by simpa using hmem2
        have hb := hbdS a ha
        rw [haEq] at hb
        simp at hb
      · exact ih (c + 1) hndT (fun k hk => le_trans (hbdT k hk) (Nat.le_succ c))
      · intro a ha hmem2
        rcases addCourseSems_keys sid t (c + 1) a hmem2 with h | h
        · rcases List.mem_append.mp ha with h1 | h2
          · exact hdisj h1 h
          · have haEq : a = (c + 1, ([] : List Char)) := by simpa using h2
            have hb := hbdT a h
            rw [haEq] at hb
            simp at hb
        · rcases List.mem_append.mp ha with h1 | h2
          · have hb := hbdS a h1
            omega
          · have haEq : a = (c + 1, ([] : List Char)) := by simpa using h2
            rw [haEq] at h
            simp at h
    · simp only [addCourseSems, if_neg hs]
      rw [keysS_cons, List.nodup_append]
      refine ⟨hndS, ih c hndT hbdT, ?_⟩
      intro a ha hmem2
      rcases addCourseSems_keys sid t c a hmem2 with h | h
      · exact hdisj ha h
      · have hb := hbdS a ha
        omega

theorem addCourse_counter_le (yid sid : String) : ∀ (ys : List Year) (c : ℕ),
    c ≤ (addCourse ys c yid sid).2 := by
  intro ys
  induction ys with
  | nil => intro c; simp [addCourse]
  | cons y t ih =>
    intro c
    by_cases hy : y.id = yid
    · simp only [addCourse, if_pos hy]
      exact le_trans (addCourseSems_counter_le sid y.semesters c)
        (ih (addCourseSems y.semesters c sid).2)
    · simp only [addCourse, if_neg hy]
      exact ih c

theorem addCourse_keys (yid sid : String) : ∀ (ys : List Year) (c : ℕ),
    ∀ k ∈ idKeys (addCourse ys c yid sid).1,
      k ∈ idKeys ys ∨ (c < k.1 ∧ k.1 ≤ (addCourse ys c yid sid).2) := by
  intro ys
  induction ys with
  | nil => intro c k hk; simp [addCourse, idKeys, allIds] at hk
  | cons y t ih =>
    intro c k hk
    by_cases hy : y.id = yid
    · simp only [addCourse, if_pos hy] at hk ⊢
      rw [idKeys_cons, keysY_eq] at hk
      rw [idKeys_cons, keysY_eq]
      rcases List.mem_append.mp hk with hk1 | hk2
      · rcases List.mem_cons.mp hk1 with rfl | hk3
        · exact Or.inl (List.mem_append_left _ (List.mem_cons_self _ _))
        · rcases addCourseSems_keys sid y.semesters c k hk3 with h | h
          · exact Or.inl (List.mem_append_left _ (List.mem_cons.mpr (Or.inr h)))
          · refine Or.inr ⟨h.1, le_trans h.2 (addCourse_counter_le yid sid t _)⟩
      · rcases ih (addCourseSems y.semesters c sid).2 k hk2 with h | h
        · exact Or.inl (List.mem_append_right _ h)
        · have hq := addCourseSems_counter_le sid y.semesters c
          exact Or.inr ⟨by omega, h.2⟩
    · simp only [addCourse, if_neg hy] at hk ⊢
      rw [idKeys_cons] at hk
      rw [idKeys_cons]
      rcases List.mem_append.mp hk with hk1 | hk2
      · exact Or.inl (List.mem_append_left _ hk1)
      · rcases ih c k hk2 with h | h
        · exact Or.inl (List.mem_append_right _ h)
        · exact Or.inr h

theorem addCourse_nodup (yid sid : String) : ∀ (ys : List Year) (c : ℕ),
    (idKeys ys).Nodup → (∀ k ∈ idKeys ys, k.1 ≤ c) →
    (idKeys (addCourse ys c yid sid).1).Nodup := by
  intro ys
  induction ys with
  | nil => intro c _ _; simp [addCourse, idKeys, allIds]
  | cons y t ih =>
    intro c hnd hbd
    rw [idKeys_cons, List.nodup_append] at hnd
    obtain ⟨hndY, hndT, hdisj⟩ := hnd
    have hbdY : ∀ k ∈ keysY y, k.1 ≤ c :=
      fun k hk => hbd k (by rw [idKeys_cons]; exact List.mem_append_left _ hk)
    have hbdT : ∀ k ∈ idKeys t, k.1 ≤ c :=
      fun k hk => hbd k (by rw [idKeys_cons]; exact List.mem_append_right _ hk)
    rw [keysY_eq] at hndY hbdY hdisj
    have hndS : (keysS y.semesters).Nodup := (List.nodup_cons.mp hndY).2
    have hheadS : idKey y.id ∉ keysS y.semesters := (List.nodup_cons.mp hndY).1
    have hbdS : ∀ k ∈ keysS y.semesters, k.1 ≤ c :=
      fun k hk => hbdY k (List.mem_cons.mpr (Or.inr hk))
    have hbdHead : (idKey y.id).1 ≤ c := hbdY _ (List.mem_cons_self _ _)
    by_cases hy : y.id = yid
    · simp only [addCourse, if_pos hy]
      rw [idKeys_cons, keysY_eq, List.nodup_append]
      dsimp only
      have hq := addCourseSems_counter_le sid y.semesters c
      refine ⟨?_, ?_, ?_⟩
      · rw [List.nodup_cons]
        refine ⟨?_, addCourseSems_nodup sid y.semesters c hndS hbdS⟩
        intro hmem2
        rcases addCourseSems_keys sid y.semesters c _ hmem2 with h | h
        · exact hheadS h
        · omega
      · exact ih _ hndT (fun k hk => le_trans (hbdT k hk) hq)
      · intro a ha hmem2
        rcases addCourse_keys yid sid t (addCourseSems y.semesters c sid).2 a hmem2 with h | h
        · rcases List.mem_cons.mp ha with rfl | ha2
          · exact hdisj (List.mem_cons_self _ _) h
          · rcases addCourseSems_keys sid y.semesters c a ha2 with h2 | h2
            · exact hdisj (List.mem_cons.mpr (Or.inr h2)) h
            · have hb := hbdT a h
              omega
        · rcases List.mem_cons.mp ha with rfl | ha2
          · omega
          · rcases addCourseSems_keys sid y.semesters c a ha2 with h2 | h2
            · have hb := hbdS a h2
              omega
            · omega
    · simp only [addCourse, if_neg hy]
      rw [idKeys_cons, keysY_eq, List.nodup_append]
      refine ⟨hndY, ?_, ?_⟩
      · exact ih c hndT hbdT
      · intro a ha hmem2
        rcases addCourse_keys yid sid t c a hmem2 with h | h
        · exact hdisj ha h
        · have hb := hbdY a ha
          omega

theorem addYear_nodup (ys : List Year) (c : ℕ)
    (hnd : (idKeys ys).Nodup) (hbd : ∀ k ∈ idKeys ys, k.1 ≤ c) :
    (idKeys (addYear ys c).1).Nodup ∧ ∀ k ∈ idKeys (addYear ys c).1, k.1 ≤ (addYear ys c).2 := by
  simp only [addYear]
  rw [idKeys_append]
  have hnew : idKeys [Year.mk (natStr (c + 1)) ("Year " ++ natStr (ys.length + 1))
      [Semester.mk (natStr (c + 1) ++ "-1") "Semester 1" [],
       Semester.mk (natStr (c + 1) ++ "-2") "Semester 2" []]]
      = [(c + 1, []), (c + 1, ['-', '1']), (c + 1, ['-', '2'])] := by
    rw [idKeys_cons, keysY_newYear]
    rfl
  rw [hnew]
  constructor
  · rw [List.nodup_append]
    refine ⟨hnd, by simp, ?_⟩
    intro a ha hmem2
    have hb := hbd a ha
    have : a.1 = c + 1 := by
      simp only [List.mem_cons, List.not_mem_nil, or_false] at hmem2
      rcases hmem2 with h | h | h <;> simp [h]
    omega
  · intro k hk
    rcases List.mem_append.mp hk with h | h
    · exact le_trans (hbd k h) (Nat.le_succ c)
    · simp only [List.mem_cons, List.not_mem_nil, or_false] at h
      rcases h with h | h | h <;> simp [h]

/-! ## Claim C4: deletes shrink the key list, updates keep it -/

theorem flatMap_sublist {α β : Type} (f : α → List β) {l₁ l₂ : List α}
    (h : l₁.Sublist l₂) : (l₁.flatMap f).Sublist (l₂.flatMap f) := by
  induction h with
  | slnil => exact List.Sublist.refl _
  | cons a h2 ih =>
    rw [List.flatMap_cons]
    exact ih.trans (List.sublist_append_right _ _)
  | cons₂ a h2 ih =>
    rw [List.flatMap_cons, List.flatMap_cons]
    exact (List.Sublist.refl (f a)).append ih

theorem allIds_map_sublist (h : Year → Year) (H : ∀ y, (yearIds (h y)).Sublist (yearIds y)) :
    ∀ ys : List Year, (allIds (ys.map h)).Sublist (allIds ys) := by
  intro ys
  induction ys with
  | nil => exact List.Sublist.refl _
  | cons y t ih =>
    rw [List.map_cons, allIds_cons, allIds_cons]
    exact (H y).append ih

theorem semBlockIds_map_sublist (g : Semester → Semester)
    (G : ∀ s, ((g s).id :: (g s).courses.map Course.id).Sublist (s.id :: s.courses.map Course.id)) :
    ∀ ss : List Semester, (semBlockIds (ss.map g)).Sublist (semBlockIds ss) := by
  intro ss
  induction ss with
  | nil => exact List.Sublist.refl _
  | cons s t ih =>
    simp only [List.map_cons, semBlockIds, List.flatMap_cons]
    exact (G s).append ih

theorem deleteYearList_allIds_sublist (ys : List Year) (yid : String) :
    (allIds (deleteYearList ys yid)).Sublist (allIds ys) :=
  flatMap_sublist yearIds (List.filter_sublist ys)

theorem deleteSemester_allIds_sublist (ys : List Year) (yid sid : String) :
    (allIds (deleteSemester ys yid sid)).Sublist (allIds ys) := by
  apply allIds_map_sublist
  intro y
  by_cases hy : y.id = yid
  · rw [if_pos hy]
    show (y.id :: semBlockIds _).Sublist (y.id :: semBlockIds y.semesters)
    exact List.Sublist.cons₂ _ (flatMap_sublist _ (List.filter_sublist y.semesters))
  · rw [if_neg hy]

theorem removeCourse_allIds_sublist (ys : List Year) (yid sid cid : String) :
    (allIds (removeCourse ys yid sid cid)).Sublist (allIds ys) := by
  apply allIds_map_sublist
  intro y
  by_cases hy : y.id = yid
  · rw [if_pos hy]
    show (y.id :: semBlockIds _).Sublist (y.id :: semBlockIds y.semesters)
    apply List.Sublist.cons₂
    apply semBlockIds_map_sublist
    intro s
    by_cases hs : s.id = sid
    · rw [if_pos hs]
      show (s.id :: List.map Course.id _).Sublist (s.id :: s.courses.map Course.id)
      exact List.Sublist.cons₂ _ ((List.filter_sublist s.courses).map Course.id)
    · rw [if_neg hs]
  · rw [if_neg hy]

theorem map_congr_mem {α β : Type} (l : List α) (f g : α → β) (h : ∀ x ∈ l, f x = g x) :
    l.map f = l.map g := by
  induction l with
  | nil => rfl
  | cons a t ih =>
    rw [List.map_cons, List.map_cons, h a (by simp), ih (fun x hx => h x (by simp [hx]))]

theorem setCourseField_id_of_ne (c : Course) (f : CourseField) (v : FieldValue)
    (hf : f ≠ CourseField.id) : (setCourseField c f v).id = c.id := by
  cases f with
  | id => exact absurd rfl hf
  | name => cases v <;> rfl
  | grade => cases v <;> rfl
  | credits => cases v <;> rfl

theorem allIds_map_eq (h : Year → Year) (H : ∀ y, yearIds (h y) = yearIds y) :
    ∀ ys : List Year, allIds (ys.map h) = allIds ys := by
  intro ys
  induction ys with
  | nil => rfl
  | cons y t ih =>
    rw [List.map_cons, allIds_cons, allIds_cons, H y, ih]

theorem semBlockIds_map_eq (g : Semester → Semester)
    (G : ∀ s, (g s).id :: (g s).courses.map Course.id = s.id :: s.courses.map Course.id) :
    ∀ ss : List Semester, semBlockIds (ss.map g) = semBlockIds ss := by
  intro ss
  induction ss with
  | nil => rfl
  | cons s t ih =>
    simp only [List.map_cons, semBlockIds, List.flatMap_cons]
    rw [show (g s).id :: (g s).courses.map Course.id = s.id :: s.courses.map Course.id from G s]
    rw [show List.flatMap _ _ = semBlockIds (t.map g) from rfl,
      show List.flatMap _ _ = semBlockIds t from rfl, ih]

theorem updateCourse_allIds (ys : List Year) (yid sid cid : String) (f : CourseField)
    (v : FieldValue) (hf : f ≠ CourseField.id) :
    allIds (updateCourse ys yid sid cid f v) = allIds ys := by
  rw [updateCourse]
  apply allIds_map_eq
  intro y
  by_cases hy : y.id = yid
  · rw [if_pos hy]
    show y.id :: semBlockIds _ = y.id :: semBlockIds y.semesters
    congr 1
    apply semBlockIds_map_eq
    intro s
    by_cases hs : s.id = sid
    · rw [if_pos hs]
      show s.id :: List.map Course.id _ = s.id :: s.courses.map Course.id
      congr 1
      rw [List.map_map]
      apply map_congr_mem
      intro c hc
      by_cases hcid : c.id = cid
      · simp only [Function.comp_apply, if_pos hcid]
        exact setCourseField_id_of_ne c f v hf
      · simp only [Function.comp_apply, if_neg hcid]
    · rw [if_neg hs]
  · rw [if_neg hy]

/-! ## Claim C4: every UI operation preserves the invariant -/

theorem goodState_of_allIds_sublist {ys ys' : List Year} {c : ℕ}
    (hsub : (allIds ys').Sublist (allIds ys)) (h : GoodState (ys, c)) : GoodState (ys', c) := by
  obtain ⟨hnd, hbd⟩ := h
  have hkeys : (idKeys ys').Sublist (idKeys ys) := hsub.map idKey
  exact ⟨hnd.sublist hkeys, fun k hk => hbd k (hkeys.subset hk)⟩

theorem goodState_applyOp (st : List Year × ℕ) (op : UiOp) (h : GoodState st) :
    GoodState (applyOp st op) := by
  obtain ⟨years, c⟩ := st
  obtain ⟨hnd, hbd⟩ := h
  cases op with
  | addYearOp =>
    obtain ⟨h1, h2⟩ := addYear_nodup years c hnd hbd
    exact ⟨h1, h2⟩
  | addSemesterOp yid =>
    refine ⟨addSemester_nodup yid years c hnd hbd, fun k hk => ?_⟩
    rcases addSemester_keys yid years c k hk with h2 | h2
    · exact le_trans (hbd k h2) (addSemester_counter_le yid years c)
    · exact h2.2
  | addCourseOp yid sid =>
    refine ⟨addCourse_nodup yid sid years c hnd hbd, fun k hk => ?_⟩
    rcases addCourse_keys yid sid years c k hk with h2 | h2
    · exact le_trans (hbd k h2) (addCourse_counter_le yid sid years c)
    · exact h2.2
  | deleteYearOp yid =>
    exact goodState_of_allIds_sublist (deleteYearList_allIds_sublist years yid) ⟨hnd, hbd⟩
  | deleteSemesterOp yid sid =>
    exact goodState_of_allIds_sublist (deleteSemester_allIds_sublist years yid sid) ⟨hnd, hbd⟩
  | removeCourseOp yid sid cid =>
    exact goodState_of_allIds_sublist (removeCourse_allIds_sublist years yid sid cid) ⟨hnd, hbd⟩
  | courseNameOp yid sid cid v =>
    exact goodState_of_allIds_sublist
      (by rw [updateCourse_allIds years yid sid cid .name (.str v) (by simp)]) ⟨hnd, hbd⟩
  | courseGradeOp yid sid cid v =>
    exact goodState_of_allIds_sublist
      (by rw [updateCourse_allIds years yid sid cid .grade (.str v) (by simp)]) ⟨hnd, hbd⟩
  | courseCreditsOp yid sid cid input =>
    exact goodState_of_allIds_sublist
      (by rw [creditsOnChange,
        updateCourse_allIds years yid sid cid .credits (.num (creditsInputValue input))
          (by simp)]) ⟨hnd, hbd⟩

theorem applyOp_counter_mono (st : List Year × ℕ) (op : UiOp) :
    st.2 ≤ (applyOp st op).2 := by
  cases op with
  | addYearOp => simp [applyOp, addYear]
  | addSemesterOp yid => exact addSemester_counter_le yid st.1 st.2
  | addCourseOp yid sid => exact addCourse_counter_le yid sid st.1 st.2
  | deleteYearOp yid => exact le_refl _
  | deleteSemesterOp yid sid => exact le_refl _
  | removeCourseOp yid sid cid => exact le_refl _
  | courseNameOp yid sid cid v => exact le_refl _
  | courseGradeOp yid sid cid v => exact le_refl _
  | courseCreditsOp yid sid cid input => exact le_refl _

theorem initial_goodState : GoodState initialState :=
  ⟨by decide, by decide⟩

theorem foldl_goodState (ops : List UiOp) : ∀ st : List Year × ℕ, GoodState st →
    GoodState (ops.foldl applyOp st) ∧ st.2 ≤ (ops.foldl applyOp st).2 := by
  induction ops with
  | nil => intro st h; exact ⟨h, le_refl _⟩
  | cons op rest ih =>
    intro st h
    rw [List.foldl_cons]
    obtain ⟨h1, h2⟩ := ih (applyOp st op) (goodState_applyOp st op h)
    exact ⟨h1, le_trans (applyOp_counter_mono st op) h2⟩

theorem le_foldl_max (l : List ℕ) : ∀ a : ℕ,
    (∀ x ∈ l, x ≤ l.foldl max a) ∧ a ≤ l.foldl max a := by
  induction l with
  | nil => intro a; exact ⟨by simp, le_refl a⟩
  | cons b t ih =>
    intro a
    constructor
    · intro x hx
      rcases List.mem_cons.mp hx with rfl | hx2
      · rw [List.foldl_cons]
        exact le_trans (le_max_right a x) (ih (max a x)).2
      · rw [List.foldl_cons]
        exact (ih (max a b)).1 x hx2
    · rw [List.foldl_cons]
      exact le_trans (le_max_left a b) (ih (max a b)).2

/-- Claim C4: every sequence of UI operations (the add operations among
them) applied to the seeded initial state keeps all ids in the Year tree
pairwise distinct; the id generator is a counter that never decreases
under any operation, starts at 1 in the seeding branch, and when seeded
from a loaded store exceeds the leading decimal value of every loaded id. -/
theorem claim_C4_ids_distinct (ops : List UiOp) :
    (allIds (runOps ops).1).Nodup
    ∧ 1 ≤ (runOps ops).2
    ∧ (∀ (st : List Year × ℕ) (op : UiOp), st.2 ≤ (applyOp st op).2)
    ∧ initialState.2 = 1
    ∧ (∀ loaded : List Year, ∀ i ∈ allIds loaded, (idKey i).1 < loadSeedCounter loaded) := by
  obtain ⟨hgood, hmono⟩ := foldl_goodState ops initialState initial_goodState
  refine ⟨?_, hmono, applyOp_counter_mono, rfl, ?_⟩
  · exact List.Nodup.of_map idKey hgood.1
  · intro loaded i hi
    rw [loadSeedCounter]
    have hmem : (idKey i).1 ∈ (allIds loaded).map (fun j => (idKey j).1) :=
      List.mem_map_of_mem _ hi
    have := (le_foldl_max ((allIds loaded).map fun j => (idKey j).1) 0).1 _ hmem
    omega

end GpaApp
